import Mathlib

/-!
Verification of the project-discovery/indexing/watch pipeline of the
`language-mcp` repository.  The definitions below are a shallow embedding of
`src/project-discovery/scanner.ts` (ProjectScanner, ProjectIndexer),
`src/project-discovery/registry.ts` (ProjectRegistry),
`src/project-discovery/file-watcher.ts` (ProjectFileWatcher) and the
`listProjects` view of `src/analyzers/projects.ts`.  Filesystem reads,
timestamps and external analyzer / vector-store behaviour are passed in as
explicit parameters (environments); JavaScript `Map` objects are embedded as
insertion-ordered association lists.
-/

namespace LanguageMcp

/-- Embeds `DiscoveredProject.language` from scanner.ts. -/
inductive Language where
  | go
  | python
  | nodejs
  | mixed
deriving DecidableEq

/-- Embeds `DiscoveredProject.ide` from scanner.ts. -/
inductive Ide where
  | vscode
  | jetbrains
  | multiple
  | none
deriving DecidableEq

/-- Embeds `ProjectMetadata.indexStatus` from registry.ts. -/
inductive IndexStatus where
  | pending
  | indexing
  | completed
  | failed
deriving DecidableEq

/-- Embeds `DiscoveredProject` (scanner.ts).  `lastModified` is a millisecond
timestamp. -/
structure DiscoveredProject where
  path : String
  name : String
  language : Language
  ide : Ide
  hasGit : Bool
  lastModified : Nat
  indicators : List String
deriving DecidableEq

/-- Embeds `ProjectMetadata` (registry.ts): the discovered fields plus the mutable
lifecycle fields.  Optional TypeScript fields are embedded as `Option`. -/
structure ProjectMetadata extends DiscoveredProject where
  lastIndexed : Option Nat
  indexStatus : IndexStatus
  symbolCount : Option Nat
  testCount : Option Nat
  docCount : Option Nat
  error : Option String
deriving DecidableEq

/-! ## Association lists embedding JavaScript `Map`

A JS `Map` keeps insertion order; `set` on an existing key updates the value
in place, `set` on a fresh key appends. -/

/-- Embeds `Map.get`: value of the (unique) entry with the given key. -/
def alistGet {α : Type} : List (String × α) → String → Option α
  | [], _ => none
  | kv :: rest, k => if kv.1 = k then some kv.2 else alistGet rest k

/-- Embeds `Map.set`: a JS `Map` updates an existing key in place (keeping its
insertion position) and appends a fresh key at the end. -/
def alistSet {α : Type} : List (String × α) → String → α → List (String × α)
  | [], k, v => [(k, v)]
  | kv :: rest, k, v =>
    if kv.1 = k then (k, v) :: rest else kv :: alistSet rest k v

/-- Embeds `Map.delete`. -/
def alistDelete {α : Type} : List (String × α) → String → List (String × α)
  | [], _ => []
  | kv :: rest, k => if kv.1 = k then rest else kv :: alistDelete rest k

theorem alistGet_alistSet_self {α : Type} (m : List (String × α)) (k : String)
    (v : α) : alistGet (alistSet m k v) k = some v := by
  induction m with
  | nil => simp [alistGet, alistSet]
  | cons kv rest ih =>
    by_cases hk : kv.1 = k
    · simp [alistGet, alistSet, hk]
    · simp [alistGet, alistSet, hk, ih]

theorem alistGet_alistSet_ne {α : Type} (m : List (String × α)) (k k' : String)
    (v : α) (h : k ≠ k') : alistGet (alistSet m k v) k' = alistGet m k' := by
  induction m with
  | nil => simp [alistGet, alistSet, h]
  | cons kv rest ih =>
    by_cases hk : kv.1 = k
    · simp [alistGet, alistSet, hk, h, ih]
    · by_cases hk' : kv.1 = k'
      · simp [alistGet, alistSet, hk, hk', Ne.symm h]
      · simp [alistGet, alistSet, hk, hk', ih]

/-- Embeds `Map.values()` as a list, in insertion order. -/
def alistValues {α : Type} (m : List (String × α)) : List α :=
  m.map (fun kv => kv.2)

/-! ## String utilities

Executable character-list implementations of the JavaScript string
operations the pipeline uses (`endsWith`, `startsWith`, `includes`,
splitting on `/`), so that every definition evaluates inside the kernel. -/

/-- Does `pat` occur at the head of `s`? -/
def matchesAt : List Char → List Char → Bool
  | [], _ => true
  | _ :: _, [] => false
  | a :: pat, b :: s => a = b && matchesAt pat s

/-- Does `pat` occur anywhere inside `s`? -/
def containsPat (pat : List Char) : List Char → Bool
  | [] => matchesAt pat []
  | b :: s => matchesAt pat (b :: s) || containsPat pat s

/-- JavaScript `String.prototype.includes`. -/
def jsIncludes (s pat : String) : Bool := containsPat pat.toList s.toList

/-- JavaScript `String.prototype.endsWith`. -/
def jsEndsWith (s suffix : String) : Bool :=
  matchesAt suffix.toList.reverse s.toList.reverse

/-- JavaScript `String.prototype.startsWith`. -/
def jsStartsWith (s pat : String) : Bool :=
  matchesAt pat.toList s.toList

/-- Split a character list on `/` (the grouping of `"a/b".split("/")`). -/
def splitSlash : List Char → List (List Char)
  | [] => [[]]
  | ch :: rest =>
    match splitSlash rest with
    | [] => [[]]
    | g :: gs => if ch = '/' then [] :: g :: gs else (ch :: g) :: gs

/-- The slash-separated components of a path. -/
def pathComponents (p : String) : List String :=
  (splitSlash p.toList).map String.mk

/-! ## Scanner (`ProjectScanner`, scanner.ts)

`analyzeDirectory` receives the entry names of a directory; the `stat` call
used for `lastModified` is passed in as a parameter. -/

/-- Embeds `path.join(dir, name)` for the POSIX paths the scanner manipulates. -/
def pathJoin (dir name : String) : String := dir ++ "/" ++ name

/-- Embeds `path.basename`. -/
def basename (p : String) : String :=
  (pathComponents p).getLastD p

/-- The per-language integer scores of `analyzeDirectory`. -/
structure LanguageScores where
  go : Nat
  python : Nat
  nodejs : Nat
deriving DecidableEq

/-- Does the entry name match the regex `\.(js|ts|jsx|tsx)$`? -/
def isJsEntry (e : String) : Bool :=
  jsEndsWith e ".js" || jsEndsWith e ".ts" || jsEndsWith e ".jsx" ||
    jsEndsWith e ".tsx"

/-- Manifest weights (10 per language with a present manifest) plus the count
of source files per extension, as computed in `analyzeDirectory`. -/
def languageScores (entries : List String) : LanguageScores :=
  let goManifest : Nat :=
    if entries.contains "go.mod" || entries.contains "go.sum" then 10 else 0
  let pyManifest : Nat :=
    if entries.contains "requirements.txt" || entries.contains "setup.py" ||
       entries.contains "Pipfile" || entries.contains "pyproject.toml"
    then 10 else 0
  let nodeManifest : Nat :=
    if entries.contains "package.json" || entries.contains "tsconfig.json"
    then 10 else 0
  { go := goManifest + (entries.filter (fun e => jsEndsWith e ".go")).length
    python := pyManifest + (entries.filter (fun e => jsEndsWith e ".py")).length
    nodejs := nodeManifest + (entries.filter isJsEntry).length }

/-- Embeds `Math.max` over the three scores. -/
def maxScore (s : LanguageScores) : Nat := max s.go (max s.python s.nodejs)

/-- Number of languages with a strictly positive score
(`activeLanguages` in `analyzeDirectory`). -/
def activeLanguages (s : LanguageScores) : Nat :=
  (if 0 < s.go then 1 else 0) + (if 0 < s.python then 1 else 0) +
    (if 0 < s.nodejs then 1 else 0)

/-- The language chosen by `analyzeDirectory` once `maxScore > 0`. -/
def determineLanguage (s : LanguageScores) : Language :=
  if 1 < activeLanguages s then Language.mixed
  else if s.go = maxScore s then Language.go
  else if s.python = maxScore s then Language.python
  else Language.nodejs

/-- IDE affinity from the `.vscode` / `.idea` markers. -/
def detectIde (entries : List String) : Ide :=
  if entries.contains ".vscode" && entries.contains ".idea" then Ide.multiple
  else if entries.contains ".vscode" then Ide.vscode
  else if entries.contains ".idea" then Ide.jetbrains
  else Ide.none

/-- The indicator strings pushed by `analyzeDirectory`, in push order: IDE
markers, `.git`, the Go manifest (`go.mod` preferred over `go.sum`), the
Python manifests, the Node manifests. -/
def collectIndicators (entries : List String) : List String :=
  (if entries.contains ".vscode" && entries.contains ".idea" then
    [".vscode", ".idea"]
   else if entries.contains ".vscode" then [".vscode"]
   else if entries.contains ".idea" then [".idea"]
   else []) ++
  (if entries.contains ".git" then [".git"] else []) ++
  (if entries.contains "go.mod" || entries.contains "go.sum" then
    [if entries.contains "go.mod" then "go.mod" else "go.sum"]
   else []) ++
  ((if entries.contains "requirements.txt" then ["requirements.txt"] else []) ++
   (if entries.contains "setup.py" then ["setup.py"] else []) ++
   (if entries.contains "Pipfile" then ["Pipfile"] else []) ++
   (if entries.contains "pyproject.toml" then ["pyproject.toml"] else [])) ++
  ((if entries.contains "package.json" then ["package.json"] else []) ++
   (if entries.contains "tsconfig.json" then ["tsconfig.json"] else []))

/-- Embeds `ProjectScanner.analyzeDirectory`: classify one directory from its entry
names.  Returns `none` for a non-project (all scores zero, or no collected
indicators). -/
def analyzeDirectory (dir : String) (entries : List String)
    (lastModified : Nat) : Option DiscoveredProject :=
  let scores := languageScores entries
  if maxScore scores = 0 then none
  else
    let language := determineLanguage scores
    let indicators := collectIndicators entries
    if indicators = [] then none
    else
      some
        { path := dir
          name := basename dir
          language := language
          ide := detectIde entries
          hasGit := entries.contains ".git"
          lastModified := lastModified
          indicators := indicators }

/-- Embeds `ProjectScanner.shouldSkipDirectory`. -/
def shouldSkipDirectory (name : String) : Bool :=
  ["node_modules", ".git", "dist", "build", "target", "__pycache__", ".venv",
   "venv", "env", ".env", "vendor", ".next", ".cache", "tmp", "temp", ".npm",
   ".yarn", "coverage", ".pytest_cache", ".mypy_cache", ".tox", "eggs",
   ".eggs", "lib", "lib64", "parts", "sdist", "wheels", ".idea",
   ".vscode"].contains name
  || jsStartsWith name "."

/-- One `readdir` entry (`withFileTypes: true`). -/
structure DirEnt where
  name : String
  isDirectory : Bool
deriving DecidableEq

/-- The filesystem as seen by the scanner: `readdir` results per path, `none`
when the directory is unreadable (the scan skips it silently). -/
abbrev Fsys : Type := String → Option (List DirEnt)

/-- Embeds `ProjectScanner.scanDirectory`, written with the remaining depth budget
`maxDepth + 1 - currentDepth` as the structural recursion argument.  `seen`
is the visited set (symlink resolution `getRealPath` is modelled as the
identity on paths); the updated set is threaded through and returned. -/
def scanGo (fs : Fsys) (mtime : String → Nat) :
    Nat → String → List String → List DiscoveredProject × List String
  | 0, _, seen => ([], seen)
  | budget + 1, dir, seen =>
    if seen.contains dir then ([], seen)
    else
      let seen1 := dir :: seen
      match fs dir with
      | none => ([], seen1)
      | some entries =>
        match analyzeDirectory dir (entries.map (fun e => e.name)) (mtime dir) with
        | some project => ([project], seen1)
        | none =>
          (entries.filter
            (fun e => e.isDirectory && !shouldSkipDirectory e.name)).foldl
            (fun acc e =>
              let r := scanGo fs mtime budget (pathJoin dir e.name) acc.2
              (acc.1 ++ r.1, r.2))
            (([] : List DiscoveredProject), seen1)

/-- Embeds `scanDirectory(dir, maxDepth, currentDepth, seen)`: the depth guard
`currentDepth > maxDepth` becomes a zero budget. -/
def scanDirectory (fs : Fsys) (mtime : String → Nat) (dir : String)
    (maxDepth currentDepth : Nat) (seen : List String) :
    List DiscoveredProject × List String :=
  scanGo fs mtime (maxDepth + 1 - currentDepth) dir seen

/-- Embeds `ProjectScanner.discoverProjects`: scan each search path with a shared
visited set, concatenating the results. -/
def discoverProjects (fs : Fsys) (mtime : String → Nat)
    (searchPaths : List String) (maxDepth : Nat) : List DiscoveredProject :=
  (searchPaths.foldl
    (fun acc sp =>
      let r := scanDirectory fs mtime sp maxDepth 0 acc.2
      (acc.1 ++ r.1, r.2))
    (([] : List DiscoveredProject), ([] : List String))).1

/-! ## Registry (`ProjectRegistry`, registry.ts)

The in-memory `Map<string, ProjectMetadata>` becomes an association list;
`Date.now()` is passed in where the source calls it.  `save()` results are
modelled in `Store` below; the in-memory mutators themselves do not depend on
the disk state. -/

abbrev Registry : Type := List (String × ProjectMetadata)

/-- Embeds `ProjectRegistry.getAllProjects` (`Array.from(this.projects.values())`). -/
def getAllProjects (m : Registry) : List ProjectMetadata := alistValues m

/-- Embeds `ProjectRegistry.addProject`: upsert keyed by `project.path`.  The spread
`{...project, indexStatus, lastIndexed, symbolCount, testCount, docCount}`
keeps exactly those five lifecycle fields of an existing entry (the four enum
values of `indexStatus` are truthy, so `existing?.indexStatus || "pending"`
preserves any existing status); the `error` field is not named in the object
literal and is therefore dropped. -/
def upsertMetadata (project : DiscoveredProject)
    (existing : Option ProjectMetadata) : ProjectMetadata :=
  { toDiscoveredProject := project
    indexStatus :=
      match existing with
      | some e => e.indexStatus
      | none => IndexStatus.pending
    lastIndexed := existing.bind (fun e => e.lastIndexed)
    symbolCount := existing.bind (fun e => e.symbolCount)
    testCount := existing.bind (fun e => e.testCount)
    docCount := existing.bind (fun e => e.docCount)
    error := none }

def addProject (m : Registry) (project : DiscoveredProject) : Registry :=
  alistSet m project.path (upsertMetadata project (alistGet m project.path))

/-- The optional `metadata` argument of `updateIndexStatus`; `none` in a field
means the caller's object literal does not mention it, so `Object.assign`
leaves the field alone. -/
structure StatusPatch where
  symbolCount : Option Nat
  testCount : Option Nat
  docCount : Option Nat
  error : Option String
deriving DecidableEq

/-- Embeds `Object.assign(project, metadata)`. -/
def applyPatch (p : ProjectMetadata) (patch : StatusPatch) : ProjectMetadata :=
  { p with
    symbolCount :=
      match patch.symbolCount with
      | some v => some v
      | none => p.symbolCount
    testCount :=
      match patch.testCount with
      | some v => some v
      | none => p.testCount
    docCount :=
      match patch.docCount with
      | some v => some v
      | none => p.docCount
    error :=
      match patch.error with
      | some v => some v
      | none => p.error }

/-- The mutation `updateIndexStatus` performs on a found entry. -/
def applyStatus (project : ProjectMetadata) (now : Nat) (status : IndexStatus)
    (patch : Option StatusPatch) : ProjectMetadata :=
  let project := { project with indexStatus := status }
  let project :=
    if status = IndexStatus.completed then
      { project with lastIndexed := some now }
    else project
  match patch with
  | some pa => applyPatch project pa
  | none => project

/-- Embeds `ProjectRegistry.updateIndexStatus(projectPath, status, metadata?)`:
no-op for an unknown path; stamps `lastIndexed` only on `completed`. -/
def updateIndexStatus (m : Registry) (now : Nat) (projectPath : String)
    (status : IndexStatus) (patch : Option StatusPatch) : Registry :=
  match alistGet m projectPath with
  | none => m
  | some project => alistSet m projectPath (applyStatus project now status patch)

/-- The 24 hours in milliseconds constant (`ONE_DAY` in `getProjectsNeedingIndex`). -/
def ONE_DAY : Nat := 24 * 60 * 60 * 1000

/-- JavaScript truthiness of the optional numeric `lastIndexed` field:
`!p.lastIndexed` holds when the field is absent or zero. -/
def jsFalsyNat : Option Nat → Bool
  | Option.none => true
  | some n => n == 0

/-- Embeds `ProjectRegistry.getProjectsNeedingIndex`. -/
def getProjectsNeedingIndex (m : Registry) (now : Nat) :
    List ProjectMetadata :=
  (getAllProjects m).filter fun p =>
    if jsFalsyNat p.lastIndexed then true
    else if p.indexStatus = IndexStatus.failed then true
    else if ONE_DAY < now - p.lastIndexed.getD 0 then true
    else false

/-- The staleness policy as the specification words it: never completed a
pass, last pass failed, or last pass older than 24 hours. -/
def needsIndexSpec (now : Nat) (p : ProjectMetadata) : Prop :=
  p.lastIndexed = none ∨ p.indexStatus = IndexStatus.failed ∨
    ∃ t, p.lastIndexed = some t ∧ ONE_DAY < now - t

instance (now : Nat) (p : ProjectMetadata) : Decidable (needsIndexSpec now p) := by
  unfold needsIndexSpec
  exact inferInstance

/-- The persisted snapshot written by `save()`: schema version, ISO timestamp
and the full project array. -/
structure Snapshot where
  version : String
  lastUpdated : String
  projects : List ProjectMetadata
deriving DecidableEq

/-- The registry together with its on-disk snapshot file (`none`: the file is
missing or unparsable, which `load()` treats as an empty registry). -/
structure Store where
  registry : Registry
  file : Option Snapshot

/-- Embeds `ProjectRegistry.save`: write a complete replacement snapshot. -/
def save (s : Store) (nowIso : String) : Store :=
  { s with
    file := some
      { version := "1.0"
        lastUpdated := nowIso
        projects := getAllProjects s.registry } }

/-- Embeds `ProjectRegistry.load`: clear the map, then re-insert every parsed project
keyed by its `path` field; any read/parse failure starts fresh. -/
def load (s : Store) : Store :=
  match s.file with
  | none => { s with registry := [] }
  | some snap =>
    { s with
      registry :=
        snap.projects.foldl (fun m p => alistSet m p.path p) [] }

/-- Well-formedness every reachable registry satisfies: keys are unique (it
is a `Map`) and each entry is stored under its own `path`. -/
def RegistryWF (m : Registry) : Prop :=
  (m.map (fun kv => kv.1)).Nodup ∧ ∀ kv ∈ m, kv.2.path = kv.1

/-! ## Indexer (`ProjectIndexer`, indexer.ts)

The external analyzer/vector-store behaviour is an environment.  Each
per-language helper (`indexGoProject`, `indexPythonProject`,
`indexNodeProject`) runs a symbols stage then a tests stage then the docs
stage inside one `try/catch`; the local counters are assigned as each stage
completes, and the `catch` falls through to `return {symbolCount, testCount,
docCount}`, so a throw yields the counters assigned so far.  A stage outcome
records the count assigned before any throw (`thrown 0 msg` when the analyzer
call itself rejects).  `indexProjectDocs` catches every error internally and
always returns a count, so the docs stage is total. -/

inductive StageResult where
  | ok (count : Nat)
  | thrown (assignedCount : Nat) (msg : String)
deriving DecidableEq

structure AnalyzerEnv where
  goSymbols : String → StageResult
  goTests : String → StageResult
  goDocs : String → Nat
  pySymbols : String → StageResult
  pyTests : String → StageResult
  pyDocs : String → Nat
  nodeSymbols : String → StageResult
  nodeTests : String → StageResult
  nodeDocs : String → Nat

/-- Counts returned by a per-language helper. -/
structure Counts where
  symbolCount : Nat
  testCount : Nat
  docCount : Nat
deriving DecidableEq

/-- The observable external calls a helper makes, for the side-effect log. -/
def stageCalls (tool : String) (p : String) (sym tst : StageResult) :
    List String :=
  (tool ++ "_find_symbols:" ++ p) ::
    match sym with
    | StageResult.thrown _ _ => []
    | StageResult.ok _ =>
      (tool ++ "_find_tests:" ++ p) ::
        match tst with
        | StageResult.thrown _ _ => []
        | StageResult.ok _ => ["index_docs:" ++ p]

/-- Shared body of the three per-language helpers: sequential stages inside
one `try/catch` returning the counters assigned so far on a throw. -/
def indexLangStages (sym tst : StageResult) (docs : Nat) : Counts :=
  match sym with
  | StageResult.thrown n _ => { symbolCount := n, testCount := 0, docCount := 0 }
  | StageResult.ok n =>
    match tst with
    | StageResult.thrown m _ =>
      { symbolCount := n, testCount := m, docCount := 0 }
    | StageResult.ok m =>
      { symbolCount := n, testCount := m, docCount := docs }

/-- Embeds `ProjectIndexer.indexGoProject` (never throws: the catch swallows). -/
def indexGoProject (env : AnalyzerEnv) (p : String) : Counts × List String :=
  (indexLangStages (env.goSymbols p) (env.goTests p) (env.goDocs p),
   stageCalls "go" p (env.goSymbols p) (env.goTests p))

/-- Embeds `ProjectIndexer.indexPythonProject`. -/
def indexPythonProject (env : AnalyzerEnv) (p : String) :
    Counts × List String :=
  (indexLangStages (env.pySymbols p) (env.pyTests p) (env.pyDocs p),
   stageCalls "python" p (env.pySymbols p) (env.pyTests p))

/-- Embeds `ProjectIndexer.indexNodeProject`. -/
def indexNodeProject (env : AnalyzerEnv) (p : String) : Counts × List String :=
  (indexLangStages (env.nodeSymbols p) (env.nodeTests p) (env.nodeDocs p),
   stageCalls "node" p (env.nodeSymbols p) (env.nodeTests p))

/-- The language dispatch in `indexProject`; for `mixed`, all three helpers
run (`Promise.allSettled`) and the counts are summed — every promise
fulfills because the helpers catch internally. -/
def indexLanguage (env : AnalyzerEnv) (lang : Language) (p : String) :
    Counts × List String :=
  match lang with
  | Language.go => indexGoProject env p
  | Language.python => indexPythonProject env p
  | Language.nodejs => indexNodeProject env p
  | Language.mixed =>
    let g := indexGoProject env p
    let py := indexPythonProject env p
    let nd := indexNodeProject env p
    ({ symbolCount := g.1.symbolCount + py.1.symbolCount + nd.1.symbolCount
       testCount := g.1.testCount + py.1.testCount + nd.1.testCount
       docCount := g.1.docCount + py.1.docCount + nd.1.docCount },
     g.2 ++ py.2 ++ nd.2)

/-- Embeds `ProjectIndexer.indexProject`: status to `indexing`, run the language
dispatch, then status to `completed` with the three counts.  The function's
own `catch` (status `failed` plus the error message) can fire only on an
exception escaping the body; the per-language helpers catch internally and
`updateIndexStatus` never throws, so the body is total and the embedding
needs no error branch. -/
def indexProject (env : AnalyzerEnv) (now : Nat) (reg : Registry)
    (project : ProjectMetadata) : Registry × List String :=
  let reg1 := updateIndexStatus reg now project.path IndexStatus.indexing none
  let r := indexLanguage env project.language project.path
  let reg2 := updateIndexStatus reg1 now project.path IndexStatus.completed
    (some
      { symbolCount := some r.1.symbolCount
        testCount := some r.1.testCount
        docCount := some r.1.docCount
        error := none })
  (reg2, r.2)

/-- The `for` loop of `indexPendingProjects`. -/
def indexProjects (env : AnalyzerEnv) (now : Nat) (reg : Registry)
    (ps : List ProjectMetadata) : Registry × List String :=
  ps.foldl
    (fun acc p =>
      let r := indexProject env now acc.1 p
      (r.1, acc.2 ++ r.2))
    (reg, ([] : List String))

/-- The indexer's mutable state: the registry, the single in-flight flag
`isIndexing`, and the log of external calls made so far. -/
structure IndexerState where
  registry : Registry
  isIndexing : Bool
  calls : List String
deriving DecidableEq

/-- Embeds `ProjectIndexer.indexPendingProjects` as one synchronous run: the guard
and the flag assignment happen before any `await`; the `finally` clears the
flag. -/
def indexPendingProjects (env : AnalyzerEnv) (now : Nat) (s : IndexerState) :
    IndexerState :=
  if s.isIndexing then s
  else
    let r := indexProjects env now s.registry
      (getProjectsNeedingIndex s.registry now)
    { registry := r.1, isIndexing := false, calls := s.calls ++ r.2 }

/-! To reason about a second `indexPendingProjects` call arriving while a
batch is suspended at an `await`, the batch is also given as a small-step
machine.  `pending = some l` means a batch is in flight with the projects `l`
still to index; each `work` step is the await-separated indexing of one
project, and `finish` is the `finally` block of a batch that has drained its
list.  `start` is the synchronous prefix of `indexPendingProjects`: the guard
and the flag assignment with no suspension point in between. -/

structure MachineState where
  st : IndexerState
  pending : Option (List ProjectMetadata)
deriving DecidableEq

inductive BatchAct where
  | start
  | work
  | finish
deriving DecidableEq

def stepBatch (env : AnalyzerEnv) (now : Nat) :
    BatchAct → MachineState → MachineState
  | BatchAct.start, m =>
    if m.st.isIndexing then m
    else
      { st := { m.st with isIndexing := true }
        pending := some (getProjectsNeedingIndex m.st.registry now) }
  | BatchAct.work, m =>
    match m.pending with
    | some (p :: rest) =>
      let r := indexProject env now m.st.registry p
      { st :=
          { registry := r.1, isIndexing := m.st.isIndexing
            calls := m.st.calls ++ r.2 }
        pending := some rest }
    | _ => m
  | BatchAct.finish, m =>
    match m.pending with
    | some [] =>
      { st := { m.st with isIndexing := false }, pending := none }
    | _ => m

/-- Run a sequence of interleaved machine actions. -/
def runActs (env : AnalyzerEnv) (now : Nat) (m : MachineState)
    (acts : List BatchAct) : MachineState :=
  acts.foldl (fun s a => stepBatch env now a s) m

/-- The coordination invariant: whenever a batch is in flight, the in-flight
flag is set. -/
def BatchInv (m : MachineState) : Prop :=
  m.pending.isSome → m.st.isIndexing = true

/-! ## FileWatcher (`ProjectFileWatcher`, file-watcher.ts)

Debounce timers are a map from project path to the absolute expiry time
`armTime + debounceDelay`; the event loop fires a timer once the clock passes
its expiry and no further event has re-armed it. -/

def debounceDelay : Nat := 5000

/-- The denylist of `shouldIgnoreFile`. -/
def ignorePaths : List String :=
  ["node_modules", ".git", "dist", "build", "target", "__pycache__", ".venv",
   "venv", "env", "vendor", ".next", ".cache", "tmp", "temp", "coverage",
   ".pytest_cache", ".mypy_cache", ".idea", ".vscode"]

/-- Embeds `ProjectFileWatcher.shouldIgnoreFile`: `filename.includes(ignorePath)` is
substring containment anywhere in the reported path. -/
def shouldIgnoreFile (filename : String) : Bool :=
  ignorePaths.any fun ig => jsIncludes filename ig

/-- Embeds `path.extname`: extension of the basename, beginning with the final dot;
empty for a dotfile or a name without an interior dot. -/
def extname (filename : String) : String :=
  let base := (pathComponents filename).getLastD filename
  let cs := base.toList
  match cs.reverse.findIdx? (fun c => c = '.') with
  | Option.none => ""
  | some j =>
    let i := cs.length - 1 - j
    if i = 0 then "" else String.mk (cs.drop i)

/-- The `sourceExtensions` record of `isSourceFile`. -/
def sourceExtensions : Language → List String
  | Language.go => [".go"]
  | Language.python => [".py"]
  | Language.nodejs => [".js", ".ts", ".jsx", ".tsx", ".mjs", ".cjs"]
  | Language.mixed =>
    [".go", ".py", ".js", ".ts", ".jsx", ".tsx", ".mjs", ".cjs"]

/-- Embeds `ProjectFileWatcher.isSourceFile`. -/
def isSourceFile (filename : String) (language : Language) : Bool :=
  (sourceExtensions language).contains (extname filename)

/-- Watcher state: armed debounce timers (project path ↦ expiry time) and the
`indexer.reindexProject` invocations fired so far, with their firing time. -/
structure WatcherState where
  timers : List (String × Nat)
  calls : List (Nat × String)
deriving DecidableEq

/-- Embeds `ProjectFileWatcher.debounceReindex` at clock time `t`: cancel the
project's existing timer and arm a fresh one expiring at `t + 5000`. -/
def debounceReindex (st : WatcherState) (t : Nat) (projectPath : String) :
    WatcherState :=
  { st with timers := alistSet st.timers projectPath (t + debounceDelay) }

/-- Embeds `ProjectFileWatcher.handleFileChange`: drop ignored or non-source events,
otherwise debounce a reindex of exactly this project. -/
def handleFileChange (st : WatcherState) (t : Nat)
    (project : ProjectMetadata) (filename : String) : WatcherState :=
  if shouldIgnoreFile filename then st
  else if !isSourceFile filename project.language then st
  else debounceReindex st t project.path

/-- Event-loop timer delivery: every timer whose expiry has passed by time
`t` fires (calling `indexer.reindexProject` with its project path and being
removed from the map). -/
def fireDue (st : WatcherState) (t : Nat) : WatcherState :=
  { timers := st.timers.filter (fun kv => !(kv.2 ≤ t))
    calls := st.calls ++ (st.timers.filter (fun kv => kv.2 ≤ t)).map
      (fun kv => (kv.2, kv.1)) }

/-- A raw filesystem notification delivered to a project's watcher. -/
structure FileEvent where
  time : Nat
  project : ProjectMetadata
  filename : String

/-- Deliver one event: due timers fire first, then the change is handled. -/
def watcherStep (st : WatcherState) (ev : FileEvent) : WatcherState :=
  handleFileChange (fireDue st ev.time) ev.time ev.project ev.filename

/-- After the last event, every remaining timer eventually fires. -/
def flushTimers (st : WatcherState) : WatcherState :=
  { timers := []
    calls := st.calls ++ st.timers.map (fun kv => (kv.2, kv.1)) }

/-- Run the watcher over a finite event trace and let all timers expire. -/
def runWatcher (st : WatcherState) (events : List FileEvent) : WatcherState :=
  flushTimers (events.foldl watcherStep st)

/-- A burst for one project: event times paired with filenames. -/
def mkEvents (p : ProjectMetadata) (evs : List (Nat × String)) :
    List FileEvent :=
  evs.map (fun tf => { time := tf.1, project := p, filename := tf.2 })

/-- The event qualifies for the project (not ignored, recognized source
extension). -/
def qualifies (p : ProjectMetadata) (filename : String) : Prop :=
  shouldIgnoreFile filename = false ∧
    isSourceFile filename p.language = true

/-- Times after `tprev` are strictly increasing with consecutive gaps
strictly below the debounce window. -/
def gapsOk : Nat → List (Nat × String) → Prop
  | _, [] => True
  | tprev, tf :: rest =>
    tprev < tf.1 ∧ tf.1 < tprev + debounceDelay ∧ gapsOk tf.1 rest

/-- Last event time of a burst beginning at `t0`. -/
def lastTime (t0 : Nat) (evs : List (Nat × String)) : Nat :=
  (evs.map (fun tf => tf.1)).getLastD t0

instance (p : ProjectMetadata) (f : String) : Decidable (qualifies p f) := by
  unfold qualifies
  exact inferInstance

/-- The spec reading of the noise filter: the changed path lies under a
denylisted directory, i.e. one of its slash-separated components is a
denylisted name. -/
def liesUnderNoise (filename : String) : Bool :=
  (pathComponents filename).any fun comp => ignorePaths.contains comp

/-- The watcher's accept/reject decision for one raw notification. -/
def eventDiscarded (language : Language) (filename : String) : Bool :=
  shouldIgnoreFile filename || !isSourceFile filename language

/-! ## `list_projects` view (`ProjectsAnalyzer.listProjects`, projects.ts) -/

/-- One row of the `list_projects` response.  `lastIndexed` is reported as an
ISO string when truthy and `"never"` otherwise; here `none` stands for
`"never"` and `some t` for the formatted timestamp `t`. -/
structure ListedProject where
  name : String
  path : String
  language : Language
  ide : Ide
  hasGit : Bool
  indexStatus : IndexStatus
  lastIndexed : Option Nat
  symbolCount : Nat
  testCount : Nat
  docCount : Nat
  error : Option String
deriving DecidableEq

/-- The projection applied to each registry entry. -/
def listedProject (p : ProjectMetadata) : ListedProject :=
  { name := p.name
    path := p.path
    language := p.language
    ide := p.ide
    hasGit := p.hasGit
    indexStatus := p.indexStatus
    lastIndexed := if jsFalsyNat p.lastIndexed then none else p.lastIndexed
    symbolCount := p.symbolCount.getD 0
    testCount := p.testCount.getD 0
    docCount := p.docCount.getD 0
    error := p.error }

/-- Embeds `ProjectsAnalyzer.listProjects` with its optional language/status/IDE
filters. -/
def listProjects (m : Registry) (language : Option Language)
    (status : Option IndexStatus) (ide : Option Ide) : List ListedProject :=
  let projects := getAllProjects m
  let projects :=
    match language with
    | some l => projects.filter fun (p : ProjectMetadata) => decide (p.language = l)
    | Option.none => projects
  let projects :=
    match status with
    | some st => projects.filter fun (p : ProjectMetadata) => decide (p.indexStatus = st)
    | Option.none => projects
  let projects :=
    match ide with
    | some i => projects.filter fun (p : ProjectMetadata) => decide (p.ide = i)
    | Option.none => projects
  projects.map listedProject

/-! ## Theorems -/

theorem analyzeDirectory_language (dir : String) (entries : List String)
    (mtime : Nat) (p : DiscoveredProject)
    (hsome : analyzeDirectory dir entries mtime = some p) :
    p.language = determineLanguage (languageScores entries) := by
  simp only [analyzeDirectory] at hsome
  split at hsome
  · exact absurd hsome (by simp)
  · split at hsome
    · exact absurd hsome (by simp)
    · rw [Option.some.injEq] at hsome
      subst hsome
      rfl

theorem determineLanguage_many (s : LanguageScores)
    (h : 1 < activeLanguages s) : determineLanguage s = Language.mixed := by
  unfold determineLanguage
  simp [h]

theorem determineLanguage_single_go (s : LanguageScores)
    (h : activeLanguages s = 1) (hg : 0 < s.go) :
    determineLanguage s = Language.go := by
  have hp : s.python = 0 := by
    unfold activeLanguages at h
    by_cases h1 : 0 < s.python <;> by_cases h2 : 0 < s.nodejs <;>
      simp [hg, h1, h2] at h <;> omega
  have hn : s.nodejs = 0 := by
    unfold activeLanguages at h
    by_cases h1 : 0 < s.python <;> by_cases h2 : 0 < s.nodejs <;>
      simp [hg, h1, h2] at h <;> omega
  unfold determineLanguage maxScore
  rw [h]
  simp [hp, hn]

theorem determineLanguage_single_python (s : LanguageScores)
    (h : activeLanguages s = 1) (hp : 0 < s.python) :
    determineLanguage s = Language.python := by
  have hg : s.go = 0 := by
    unfold activeLanguages at h
    by_cases h1 : 0 < s.go <;> by_cases h2 : 0 < s.nodejs <;>
      simp [hp, h1, h2] at h <;> omega
  have hn : s.nodejs = 0 := by
    unfold activeLanguages at h
    by_cases h1 : 0 < s.go <;> by_cases h2 : 0 < s.nodejs <;>
      simp [hp, h1, h2] at h <;> omega
  unfold determineLanguage maxScore
  rw [h]
  simp [hg, hn]
  omega

theorem determineLanguage_single_nodejs (s : LanguageScores)
    (h : activeLanguages s = 1) (hn : 0 < s.nodejs) :
    determineLanguage s = Language.nodejs := by
  have hg : s.go = 0 := by
    unfold activeLanguages at h
    by_cases h1 : 0 < s.go <;> by_cases h2 : 0 < s.python <;>
      simp [hn, h1, h2] at h <;> omega
  have hp : s.python = 0 := by
    unfold activeLanguages at h
    by_cases h1 : 0 < s.go <;> by_cases h2 : 0 < s.python <;>
      simp [hn, h1, h2] at h <;> omega
  unfold determineLanguage maxScore
  rw [h]
  simp only [hg, hp]
  rw [if_neg (by omega)]
  rw [if_neg (by omega), if_neg (by omega)]

/-- C3: when more than one language has a strictly positive score the
classification is "mixed" even if one score strictly exceeds all others;
when exactly one language has a positive score, that language is the
classification. -/
theorem classification_mixed_overrides_max (dir : String)
    (entries : List String) (mtime : Nat) (p : DiscoveredProject)
    (hsome : analyzeDirectory dir entries mtime = some p) :
    (1 < activeLanguages (languageScores entries) →
      p.language = Language.mixed)
    ∧ (activeLanguages (languageScores entries) = 1 →
        (0 < (languageScores entries).go → p.language = Language.go)
        ∧ (0 < (languageScores entries).python →
            p.language = Language.python)
        ∧ (0 < (languageScores entries).nodejs →
            p.language = Language.nodejs)) := by
  have hl := analyzeDirectory_language dir entries mtime p hsome
  refine ⟨fun h => ?_, fun h => ⟨fun hg => ?_, fun hp => ?_, fun hn => ?_⟩⟩
  · rw [hl]; exact determineLanguage_many _ h
  · rw [hl]; exact determineLanguage_single_go _ h hg
  · rw [hl]; exact determineLanguage_single_python _ h hp
  · rw [hl]; exact determineLanguage_single_nodejs _ h hn

/-- C3 witness: `["go.mod", "a.py"]` has a dominant Go score (10 against 1)
yet classifies as "mixed". -/
theorem classification_mixed_overrides_max_witness :
    (1 < activeLanguages (languageScores ["go.mod", "a.py"]) →
      (({ path := "d", name := "d", language := Language.mixed
          ide := Ide.none, hasGit := false, lastModified := 0
          indicators := ["go.mod"] } : DiscoveredProject)).language =
        Language.mixed)
    ∧ (activeLanguages (languageScores ["go.mod", "a.py"]) = 1 →
        (0 < (languageScores ["go.mod", "a.py"]).go →
          (({ path := "d", name := "d", language := Language.mixed
              ide := Ide.none, hasGit := false, lastModified := 0
              indicators := ["go.mod"] } : DiscoveredProject)).language =
            Language.go)
        ∧ (0 < (languageScores ["go.mod", "a.py"]).python →
            (({ path := "d", name := "d", language := Language.mixed
                ide := Ide.none, hasGit := false, lastModified := 0
                indicators := ["go.mod"] } : DiscoveredProject)).language =
              Language.python)
        ∧ (0 < (languageScores ["go.mod", "a.py"]).nodejs →
            (({ path := "d", name := "d", language := Language.mixed
                ide := Ide.none, hasGit := false, lastModified := 0
                indicators := ["go.mod"] } : DiscoveredProject)).language =
              Language.nodejs)) :=
  classification_mixed_overrides_max "d" ["go.mod", "a.py"] 0
    { path := "d", name := "d", language := Language.mixed
      ide := Ide.none, hasGit := false, lastModified := 0
      indicators := ["go.mod"] } (by decide)

theorem analyzeDirectory_none_of_nothing (dir : String)
    (entries : List String) (mtime : Nat)
    (h : maxScore (languageScores entries) = 0 ∨
      collectIndicators entries = []) :
    analyzeDirectory dir entries mtime = none := by
  unfold analyzeDirectory
  rcases h with h | h
  · simp [h]
  · by_cases h0 : maxScore (languageScores entries) = 0
    · simp [h0]
    · simp [h0, h]

theorem analyzeDirectory_indicators_ne_nil (dir : String)
    (entries : List String) (mtime : Nat) (p : DiscoveredProject)
    (hsome : analyzeDirectory dir entries mtime = some p) :
    p.indicators ≠ [] := by
  simp only [analyzeDirectory] at hsome
  split at hsome
  · exact absurd hsome (by simp)
  · split at hsome
    · exact absurd hsome (by simp)
    · rw [Option.some.injEq] at hsome
      subst hsome
      assumption

theorem scanGo_indicators_ne_nil (fs : Fsys) (mtime : String → Nat) :
    ∀ (budget : Nat) (dir : String) (seen : List String)
      (p : DiscoveredProject), p ∈ (scanGo fs mtime budget dir seen).1 →
      p.indicators ≠ [] := by
  intro budget
  induction budget with
  | zero => intro dir seen p hp; simp [scanGo] at hp
  | succ b ih =>
    intro dir seen p hp
    rw [scanGo] at hp
    split at hp
    · simp at hp
    · split at hp
      · simp at hp
      · split at hp
        · next project heq =>
          simp at hp
          subst hp
          exact analyzeDirectory_indicators_ne_nil _ _ _ _ heq
        · revert hp
          have haux :
              ∀ (l : List DirEnt) (acc : List DiscoveredProject × List String),
                (∀ q ∈ acc.1, q.indicators ≠ ([] : List String)) →
                ∀ q ∈ (l.foldl
                  (fun acc e =>
                    let r := scanGo fs mtime b (pathJoin dir e.name) acc.2
                    (acc.1 ++ r.1, r.2)) acc).1, q.indicators ≠ [] := by
            intro l
            induction l with
            | nil => intro acc hacc q hq; exact hacc q hq
            | cons e rest ihl =>
              intro acc hacc q hq
              refine ihl _ ?_ q hq
              intro q' hq'
              rcases List.mem_append.mp hq' with h' | h'
              · exact hacc q' h'
              · exact ih _ _ q' h'
          intro hp
          exact haux _ _ (by intro q hq; simp at hq) p hp

/-- C7: a directory with all language scores zero, or with an empty collected
indicator list, is rejected by `analyzeDirectory`, and every project reported
by `discoverProjects` has a non-empty indicator list. -/
theorem no_indicators_no_project (dir : String) (entries : List String)
    (mtime : Nat)
    (h : maxScore (languageScores entries) = 0 ∨
      collectIndicators entries = []) :
    analyzeDirectory dir entries mtime = none
    ∧ ∀ (fs : Fsys) (mt : String → Nat) (searchPaths : List String)
        (maxDepth : Nat) (p : DiscoveredProject),
        p ∈ discoverProjects fs mt searchPaths maxDepth →
        p.indicators ≠ [] := by
  refine ⟨analyzeDirectory_none_of_nothing dir entries mtime h, ?_⟩
  intro fs mt searchPaths maxDepth p hp
  unfold discoverProjects at hp
  revert hp
  have haux : ∀ (sps : List String)
      (acc : List DiscoveredProject × List String),
      (∀ q ∈ acc.1, q.indicators ≠ ([] : List String)) →
      ∀ q ∈ (sps.foldl
        (fun acc sp =>
          let r := scanDirectory fs mt sp maxDepth 0 acc.2
          (acc.1 ++ r.1, r.2)) acc).1, q.indicators ≠ [] := by
    intro sps
    induction sps with
    | nil => intro acc hacc q hq; exact hacc q hq
    | cons sp rest ihl =>
      intro acc hacc q hq
      refine ihl _ ?_ q hq
      intro q' hq'
      rcases List.mem_append.mp hq' with h' | h'
      · exact hacc q' h'
      · exact scanGo_indicators_ne_nil fs mt _ _ _ q' h'
  intro hp
  exact haux _ _ (by intro q hq; simp at hq) p hp

/-- C7 witness: `["main.go"]` scores positively for Go but carries no
indicator, so it is not a project. -/
theorem no_indicators_no_project_witness :
    analyzeDirectory "/home/u/x" ["main.go"] 0 = none
    ∧ ∀ (fs : Fsys) (mt : String → Nat) (searchPaths : List String)
        (maxDepth : Nat) (p : DiscoveredProject),
        p ∈ discoverProjects fs mt searchPaths maxDepth →
        p.indicators ≠ [] :=
  no_indicators_no_project "/home/u/x" ["main.go"] 0 (Or.inr (by decide))

/-! ### Registry lemmas -/

theorem alistGet_mem {α : Type} (m : List (String × α)) (k : String) (v : α)
    (h : alistGet m k = some v) : (k, v) ∈ m := by
  induction m with
  | nil => simp [alistGet] at h
  | cons kv rest ih =>
    rw [alistGet] at h
    split at h
    · next heq =>
      rw [Option.some.injEq] at h
      exact List.mem_cons.mpr (Or.inl (by cases kv; simp_all))
    · exact List.mem_cons.mpr (Or.inr (ih h))

theorem alistValues_mem {α : Type} (m : List (String × α)) (k : String)
    (v : α) (h : (k, v) ∈ m) : v ∈ alistValues m :=
  List.mem_map.mpr ⟨(k, v), h, rfl⟩

theorem updateIndexStatus_get_self (m : Registry) (now : Nat) (path : String)
    (status : IndexStatus) (patch : Option StatusPatch) (p : ProjectMetadata)
    (h : alistGet m path = some p) :
    alistGet (updateIndexStatus m now path status patch) path =
      some (applyStatus p now status patch) := by
  unfold updateIndexStatus
  rw [h]
  exact alistGet_alistSet_self m path _

theorem updateIndexStatus_get_other (m : Registry) (now : Nat) (path : String)
    (status : IndexStatus) (patch : Option StatusPatch) (other : String)
    (h : path ≠ other) :
    alistGet (updateIndexStatus m now path status patch) other =
      alistGet m other := by
  unfold updateIndexStatus
  cases alistGet m path with
  | none => rfl
  | some p => exact alistGet_alistSet_ne m path other _ h

/-! ### C5: staleness policy -/

theorem needsIndex_pred_iff (now : Nat) (p : ProjectMetadata)
    (hnow : ONE_DAY < now) :
    ((if jsFalsyNat p.lastIndexed then true
      else if p.indexStatus = IndexStatus.failed then true
      else if ONE_DAY < now - p.lastIndexed.getD 0 then true else false)
        = true)
    ↔ needsIndexSpec now p := by
  unfold needsIndexSpec
  cases hli : p.lastIndexed with
  | none => simp [jsFalsyNat]
  | some t =>
    by_cases ht : t = 0
    · subst ht
      simp only [jsFalsyNat, beq_self_eq_true, if_true, true_iff]
      right
      right
      exact ⟨0, rfl, by simpa using hnow⟩
    · have hf : jsFalsyNat (some t) = false := by
        simp [jsFalsyNat, ht]
      rw [hf]
      by_cases hst : p.indexStatus = IndexStatus.failed
      · simp [hst]
      · by_cases hc : ONE_DAY < now - t
        · simp only [Option.getD_some, Bool.false_eq_true, if_false, hst,
            hc, if_true, true_iff]
          right
          right
          exact ⟨t, rfl, hc⟩
        · simp [hst, hc]

/-- C5: the projects needing an indexing pass are exactly the registered
projects that never completed a pass, whose last pass failed, or whose last
pass is older than 24 hours; concretely, 25 hours ago qualifies, a completed
pass 1 hour ago does not, and `failed` qualifies at any timestamp. -/
theorem getProjectsNeedingIndex_staleness (m : Registry) (now : Nat)
    (hnow : ONE_DAY < now) :
    (∀ p : ProjectMetadata, p ∈ getProjectsNeedingIndex m now ↔
      p ∈ getAllProjects m ∧ needsIndexSpec now p)
    ∧ (∀ p : ProjectMetadata, ∀ t : Nat, p ∈ getAllProjects m →
        p.lastIndexed = some t → now = t + 25 * 60 * 60 * 1000 →
        p ∈ getProjectsNeedingIndex m now)
    ∧ (∀ p : ProjectMetadata, ∀ t : Nat, p ∈ getAllProjects m →
        p.indexStatus = IndexStatus.completed → p.lastIndexed = some t →
        now = t + 60 * 60 * 1000 → p ∉ getProjectsNeedingIndex m now)
    ∧ (∀ p : ProjectMetadata, p ∈ getAllProjects m →
        p.indexStatus = IndexStatus.failed →
        p ∈ getProjectsNeedingIndex m now) := by
  have hmem : ∀ p : ProjectMetadata, p ∈ getProjectsNeedingIndex m now ↔
      p ∈ getAllProjects m ∧ needsIndexSpec now p := by
    intro p
    unfold getProjectsNeedingIndex
    rw [List.mem_filter]
    exact and_congr_right fun _ => needsIndex_pred_iff now p hnow
  refine ⟨hmem, ?_, ?_, ?_⟩
  · intro p t hp hli hn
    refine (hmem p).mpr ⟨hp, ?_⟩
    right; right
    refine ⟨t, hli, ?_⟩
    subst hn
    unfold ONE_DAY
    omega
  · intro p t hp hst hli hn hcontra
    rcases ((hmem p).mp hcontra).2 with h | h | ⟨t', ht', hgt⟩
    · rw [hli] at h; exact Option.noConfusion h
    · rw [hst] at h; exact IndexStatus.noConfusion h
    · rw [hli, Option.some.injEq] at ht'
      subst ht'
      subst hn
      unfold ONE_DAY at hgt
      omega
  · intro p hp hst
    exact (hmem p).mpr ⟨hp, Or.inr (Or.inl hst)⟩

def dpC5 (path : String) : DiscoveredProject :=
  { path := path, name := path, language := Language.go, ide := Ide.none
    hasGit := false, lastModified := 0, indicators := ["go.mod"] }

def pStaleC5 : ProjectMetadata :=
  { toDiscoveredProject := dpC5 "/stale"
    lastIndexed := some 82800000, indexStatus := IndexStatus.completed
    symbolCount := some 1, testCount := some 0, docCount := some 0
    error := none }

def pFreshC5 : ProjectMetadata :=
  { toDiscoveredProject := dpC5 "/fresh"
    lastIndexed := some 169200000, indexStatus := IndexStatus.completed
    symbolCount := some 1, testCount := some 0, docCount := some 0
    error := none }

def pFailedC5 : ProjectMetadata :=
  { toDiscoveredProject := dpC5 "/failed"
    lastIndexed := some 172700000, indexStatus := IndexStatus.failed
    symbolCount := none, testCount := none, docCount := none
    error := some "go vet exploded" }

def regC5 : Registry :=
  [("/stale", pStaleC5), ("/fresh", pFreshC5), ("/failed", pFailedC5)]

/-- C5 witness at `now = 2 * ONE_DAY`: the project indexed 25 hours ago and
the failed project are selected; the completed project indexed 1 hour ago is
not. -/
theorem getProjectsNeedingIndex_staleness_witness :
    pStaleC5 ∈ getProjectsNeedingIndex regC5 (2 * ONE_DAY)
    ∧ pFreshC5 ∉ getProjectsNeedingIndex regC5 (2 * ONE_DAY)
    ∧ pFailedC5 ∈ getProjectsNeedingIndex regC5 (2 * ONE_DAY) := by
  have h := getProjectsNeedingIndex_staleness regC5 (2 * ONE_DAY)
    (by unfold ONE_DAY; omega)
  refine ⟨?_, ?_, ?_⟩
  · exact h.2.1 pStaleC5 82800000 (by decide) (by decide)
      (by unfold ONE_DAY; decide)
  · exact h.2.2.1 pFreshC5 169200000 (by decide) (by decide) (by decide)
      (by unfold ONE_DAY; decide)
  · exact h.2.2.2 pFailedC5 (by decide) (by decide)

/-! ### C6: upsert and lifecycle fields -/

theorem addProject_get (m : Registry) (dp : DiscoveredProject) :
    alistGet (addProject m dp) dp.path =
      some (upsertMetadata dp (alistGet m dp.path)) := by
  unfold addProject
  exact alistGet_alistSet_self m dp.path _

def dpC6 : DiscoveredProject :=
  { path := "/p", name := "p", language := Language.go, ide := Ide.vscode
    hasGit := true, lastModified := 7, indicators := [".vscode", "go.mod"] }

def pErrC6 : ProjectMetadata :=
  { toDiscoveredProject := dpC6
    lastIndexed := some 5, indexStatus := IndexStatus.failed
    symbolCount := some 3, testCount := some 2, docCount := some 1
    error := some "boom" }

def regC6 : Registry := [("/p", pErrC6)]

/-- C6 counterexample: re-discovering a registered path whose entry carries
an error message produces an entry with no error message — `addProject` does
not preserve the last error string, contradicting the claim that every
lifecycle field including the error is preserved. -/
theorem addProject_drops_error_cex :
    (alistGet regC6 "/p").bind (fun q => q.error) = some "boom"
    ∧ (alistGet (addProject regC6 dpC6) "/p").bind (fun q => q.error)
        = none := by decide

/-- C6 amended: `addProject` on a known path replaces the discovery-derived
fields and preserves the lifecycle fields `indexStatus`, `lastIndexed`,
`symbolCount`, `testCount` and `docCount`, but resets the `error` field to
absent; upserting twice with the same DiscoveredProject leaves those
lifecycle fields unchanged after the second call. -/
theorem addProject_preserves_lifecycle_fields (m : Registry)
    (dp : DiscoveredProject) (ex : ProjectMetadata)
    (h : alistGet m dp.path = some ex) :
    alistGet (addProject m dp) dp.path = some
      { toDiscoveredProject := dp
        lastIndexed := ex.lastIndexed
        indexStatus := ex.indexStatus
        symbolCount := ex.symbolCount
        testCount := ex.testCount
        docCount := ex.docCount
        error := none }
    ∧ alistGet (addProject (addProject m dp) dp) dp.path =
        alistGet (addProject m dp) dp.path := by
  have h1 := addProject_get m dp
  rw [h] at h1
  refine ⟨h1, ?_⟩
  have h2 := addProject_get (addProject m dp) dp
  rw [h1] at h2
  rw [h2, h1]
  rfl

/-- C6 amended witness. -/
theorem addProject_preserves_lifecycle_fields_witness :
    alistGet (addProject regC6 dpC6) "/p" = some
      { toDiscoveredProject := dpC6
        lastIndexed := some 5
        indexStatus := IndexStatus.failed
        symbolCount := some 3
        testCount := some 2
        docCount := some 1
        error := none }
    ∧ alistGet (addProject (addProject regC6 dpC6) dpC6) "/p" =
        alistGet (addProject regC6 dpC6) "/p" :=
  addProject_preserves_lifecycle_fields regC6 dpC6 pErrC6 (by decide)

/-! ### C10: a completed pass does not clear a stale error -/

/-- C10: completing a pass with a counts-only patch keeps a previously
recorded error message on the metadata, alongside `completed` status and the
fresh `lastIndexed` stamp, and `list_projects` reports that stale error. -/
theorem completed_pass_keeps_stale_error (m : Registry) (now : Nat)
    (p : ProjectMetadata) (e : String) (sc tc dc : Nat)
    (hget : alistGet m p.path = some p) (herr : p.error = some e) :
    ((alistGet (updateIndexStatus m now p.path IndexStatus.completed
        (some { symbolCount := some sc, testCount := some tc
                docCount := some dc, error := none })) p.path).bind
      (fun q => q.error) = some e)
    ∧ ((alistGet (updateIndexStatus m now p.path IndexStatus.completed
        (some { symbolCount := some sc, testCount := some tc
                docCount := some dc, error := none })) p.path).map
      (fun q => q.indexStatus) = some IndexStatus.completed)
    ∧ ((alistGet (updateIndexStatus m now p.path IndexStatus.completed
        (some { symbolCount := some sc, testCount := some tc
                docCount := some dc, error := none })) p.path).bind
      (fun q => q.lastIndexed) = some now)
    ∧ ∃ row ∈ listProjects (updateIndexStatus m now p.path
        IndexStatus.completed
        (some { symbolCount := some sc, testCount := some tc
                docCount := some dc, error := none })) none none none,
        row.path = p.path ∧ row.error = some e := by
  have hup := updateIndexStatus_get_self m now p.path IndexStatus.completed
    (some { symbolCount := some sc, testCount := some tc
            docCount := some dc, error := none }) p hget
  refine ⟨?_, ?_, ?_, ?_⟩
  · rw [hup]
    simp [applyStatus, applyPatch, herr]
  · rw [hup]
    simp [applyStatus, applyPatch]
  · rw [hup]
    simp [applyStatus, applyPatch]
  · refine ⟨listedProject (applyStatus p now IndexStatus.completed
      (some { symbolCount := some sc, testCount := some tc
              docCount := some dc, error := none })), ?_, ?_, ?_⟩
    · unfold listProjects
      exact List.mem_map.mpr
        ⟨_, alistValues_mem _ _ _ (alistGet_mem _ _ _ hup), rfl⟩
    · simp [listedProject, applyStatus, applyPatch]
    · simp [listedProject, applyStatus, applyPatch, herr]

/-- C10 witness: completing the failed example project with fresh counts
leaves its old error string visible. -/
theorem completed_pass_keeps_stale_error_witness :
    ((alistGet (updateIndexStatus regC6 9 "/p" IndexStatus.completed
        (some { symbolCount := some 4, testCount := some 2
                docCount := some 1, error := none })) "/p").bind
      (fun q => q.error) = some "boom")
    ∧ ((alistGet (updateIndexStatus regC6 9 "/p" IndexStatus.completed
        (some { symbolCount := some 4, testCount := some 2
                docCount := some 1, error := none })) "/p").map
      (fun q => q.indexStatus) = some IndexStatus.completed)
    ∧ ((alistGet (updateIndexStatus regC6 9 "/p" IndexStatus.completed
        (some { symbolCount := some 4, testCount := some 2
                docCount := some 1, error := none })) "/p").bind
      (fun q => q.lastIndexed) = some 9)
    ∧ ∃ row ∈ listProjects (updateIndexStatus regC6 9 "/p"
        IndexStatus.completed
        (some { symbolCount := some 4, testCount := some 2
                docCount := some 1, error := none })) none none none,
        row.path = "/p" ∧ row.error = some "boom" := by
  have h := completed_pass_keeps_stale_error regC6 9 pErrC6 "boom" 4 2 1
    (by decide) (by decide)
  exact h

/-! ### C9: persistence round-trip -/

theorem alistSet_append_of_not_mem {α : Type} (m : List (String × α))
    (k : String) (v : α) (h : k ∉ m.map (fun kv => kv.1)) :
    alistSet m k v = m ++ [(k, v)] := by
  induction m with
  | nil => rfl
  | cons kv rest ih =>
    simp only [List.map_cons, List.mem_cons] at h
    push_neg at h
    rw [alistSet, if_neg (fun hh => h.1 hh.symm), List.cons_append,
      ih h.2]

theorem rebuild_registry : ∀ (m acc : Registry),
    (((acc ++ m).map (fun kv => kv.1)).Nodup) →
    (∀ kv ∈ m, kv.2.path = kv.1) →
    (alistValues m).foldl (fun a p => alistSet a p.path p) acc = acc ++ m := by
  intro m
  induction m with
  | nil => intro acc _ _; simp [alistValues]
  | cons kv rest ih =>
    intro acc h1 h2
    have hpath : kv.2.path = kv.1 := h2 kv (List.mem_cons_self kv rest)
    have hnotin : kv.1 ∉ acc.map (fun kv => kv.1) := by
      rw [List.map_append, List.nodup_append] at h1
      intro hmem
      exact h1.2.2 hmem (by simp)
    have hstep : alistSet acc kv.2.path kv.2 = acc ++ [(kv.1, kv.2)] := by
      rw [hpath]
      exact alistSet_append_of_not_mem acc kv.1 kv.2 hnotin
    have hkv : (kv.1, kv.2) = kv := rfl
    calc (alistValues (kv :: rest)).foldl
          (fun a p => alistSet a p.path p) acc
        = (alistValues rest).foldl (fun a p => alistSet a p.path p)
            (alistSet acc kv.2.path kv.2) := by
          simp [alistValues]
      _ = (alistValues rest).foldl (fun a p => alistSet a p.path p)
            (acc ++ [kv]) := by rw [hstep, hkv]
      _ = (acc ++ [kv]) ++ rest := by
          refine ih (acc ++ [kv]) ?_ (fun q hq => h2 q (List.mem_cons_of_mem kv hq))
          simpa using h1
      _ = acc ++ kv :: rest := by simp

/-- C9: for a well-formed registry (unique keys, each entry stored under its
own path — an invariant of every reachable state), `save()` followed by
`load()` reproduces the registry exactly, and the written snapshot is a
complete replacement determined only by the in-memory state. -/
theorem save_load_roundtrip (s : Store) (nowIso : String)
    (h : RegistryWF s.registry) :
    (load (save s nowIso)).registry = s.registry
    ∧ (save s nowIso).file = some
        { version := "1.0", lastUpdated := nowIso
          projects := getAllProjects s.registry } := by
  refine ⟨?_, rfl⟩
  show (getAllProjects s.registry).foldl (fun m p => alistSet m p.path p) []
    = s.registry
  exact rebuild_registry s.registry [] (by simpa using h.1) h.2

def stC9 : Store :=
  { registry := regC5, file := none }

/-- C9 witness on a three-project registry. -/
theorem save_load_roundtrip_witness :
    (load (save stC9 "2026-10-11T00:00:00Z")).registry = stC9.registry
    ∧ (save stC9 "2026-10-11T00:00:00Z").file = some
        { version := "1.0", lastUpdated := "2026-10-11T00:00:00Z"
          projects := getAllProjects stC9.registry } :=
  save_load_roundtrip stC9 "2026-10-11T00:00:00Z"
    ⟨by decide, by decide⟩

/-! The well-formedness hypothesis of the round-trip is an invariant: the
mutators keep it. -/

theorem mem_keys_alistSet {α : Type} (m : List (String × α)) (k x : String)
    (v : α) (hx : x ∈ (alistSet m k v).map (fun kv => kv.1)) :
    x = k ∨ x ∈ m.map (fun kv => kv.1) := by
  induction m with
  | nil => simpa [alistSet] using hx
  | cons kv rest ih =>
    rw [alistSet] at hx
    split at hx
    · next heq =>
      simp only [List.map_cons, List.mem_cons] at hx ⊢
      rcases hx with hx | hx
      · exact Or.inl hx
      · exact Or.inr (Or.inr hx)
    · simp only [List.map_cons, List.mem_cons] at hx ⊢
      rcases hx with hx | hx
      · exact Or.inr (Or.inl hx)
      · rcases ih hx with hx | hx
        · exact Or.inl hx
        · exact Or.inr (Or.inr hx)

theorem RegistryWF_alistSet (m : Registry) (k : String) (v : ProjectMetadata)
    (h : RegistryWF m) (hv : v.path = k) : RegistryWF (alistSet m k v) := by
  obtain ⟨h1, h2⟩ := h
  induction m with
  | nil =>
    exact ⟨by simp [alistSet], by
      intro kv hkv
      simp [alistSet] at hkv
      subst hkv
      exact hv⟩
  | cons kv rest ih =>
    simp only [List.map_cons, List.nodup_cons] at h1
    rw [alistSet]
    by_cases hk : kv.1 = k
    · rw [if_pos hk]
      refine ⟨?_, ?_⟩
      · simp only [List.map_cons, List.nodup_cons]
        exact ⟨hk ▸ h1.1, h1.2⟩
      · intro q hq
        rcases List.mem_cons.mp hq with hq | hq
        · subst hq; exact hv
        · exact h2 q (List.mem_cons_of_mem kv hq)
    · rw [if_neg hk]
      have hrest := ih h1.2 (fun q hq => h2 q (List.mem_cons_of_mem kv hq))
      refine ⟨?_, ?_⟩
      · simp only [List.map_cons, List.nodup_cons]
        refine ⟨?_, hrest.1⟩
        intro hmem
        rcases mem_keys_alistSet rest k kv.1 v hmem with hx | hx
        · exact hk hx
        · exact h1.1 hx
      · intro q hq
        rcases List.mem_cons.mp hq with hq | hq
        · subst hq; exact h2 q (List.mem_cons_self q rest)
        · exact hrest.2 q hq

theorem applyStatus_path (p : ProjectMetadata) (now : Nat)
    (status : IndexStatus) (patch : Option StatusPatch) :
    (applyStatus p now status patch).path = p.path := by
  unfold applyStatus applyPatch
  cases patch with
  | none => split <;> rfl
  | some pa => split <;> rfl

theorem RegistryWF_addProject (m : Registry) (dp : DiscoveredProject)
    (h : RegistryWF m) : RegistryWF (addProject m dp) :=
  RegistryWF_alistSet m dp.path (upsertMetadata dp (alistGet m dp.path)) h rfl

theorem RegistryWF_updateIndexStatus (m : Registry) (now : Nat)
    (path : String) (status : IndexStatus) (patch : Option StatusPatch)
    (h : RegistryWF m) :
    RegistryWF (updateIndexStatus m now path status patch) := by
  unfold updateIndexStatus
  cases hget : alistGet m path with
  | none => exact h
  | some p =>
    refine RegistryWF_alistSet m path _ h ?_
    rw [applyStatus_path]
    exact h.2 (path, p) (alistGet_mem m path p hget)

/-! ### C4: a throwing analyzer and the enclosing batch -/

theorem indexProject_get_self (env : AnalyzerEnv) (now : Nat) (reg : Registry)
    (project pr : ProjectMetadata)
    (hp : alistGet reg project.path = some pr) :
    alistGet (indexProject env now reg project).1 project.path =
      some (applyStatus (applyStatus pr now IndexStatus.indexing none) now
        IndexStatus.completed
        (some
          { symbolCount :=
              some (indexLanguage env project.language project.path).1.symbolCount
            testCount :=
              some (indexLanguage env project.language project.path).1.testCount
            docCount :=
              some (indexLanguage env project.language project.path).1.docCount
            error := none })) := by
  unfold indexProject
  exact updateIndexStatus_get_self _ now project.path IndexStatus.completed _
    (applyStatus pr now IndexStatus.indexing none)
    (updateIndexStatus_get_self reg now project.path IndexStatus.indexing
      none pr hp)

theorem indexProject_get_other (env : AnalyzerEnv) (now : Nat)
    (reg : Registry) (project : ProjectMetadata) (other : String)
    (h : project.path ≠ other) :
    alistGet (indexProject env now reg project).1 other =
      alistGet reg other := by
  unfold indexProject
  rw [updateIndexStatus_get_other _ now project.path IndexStatus.completed _
    other h]
  exact updateIndexStatus_get_other reg now project.path IndexStatus.indexing
    none other h

def dpC4 (path : String) : DiscoveredProject :=
  { path := path, name := path, language := Language.go, ide := Ide.none
    hasGit := true, lastModified := 0, indicators := ["go.mod"] }

def pThrowC4 : ProjectMetadata :=
  { toDiscoveredProject := dpC4 "/gp"
    lastIndexed := none, indexStatus := IndexStatus.pending
    symbolCount := none, testCount := none, docCount := none, error := none }

def pHealthyC4 : ProjectMetadata :=
  { toDiscoveredProject := dpC4 "/hq"
    lastIndexed := none, indexStatus := IndexStatus.pending
    symbolCount := none, testCount := none, docCount := none, error := none }

def regC4 : Registry := [("/gp", pThrowC4), ("/hq", pHealthyC4)]

/-- The Go analyzer rejects for `/gp` and succeeds everywhere else. -/
def envC4 : AnalyzerEnv :=
  { goSymbols := fun path =>
      if path = "/gp" then StageResult.thrown 0 "go analyzer exploded"
      else StageResult.ok 5
    goTests := fun _ => StageResult.ok 2
    goDocs := fun _ => 1
    pySymbols := fun _ => StageResult.ok 0
    pyTests := fun _ => StageResult.ok 0
    pyDocs := fun _ => 0
    nodeSymbols := fun _ => StageResult.ok 0
    nodeTests := fun _ => StageResult.ok 0
    nodeDocs := fun _ => 0 }

/-- C4 counterexample: when the analyzer call throws, the per-language helper
(`indexGoProject`) catches it internally and returns zero counts, so
`indexProject` marks the project `completed` with no error string — not
`failed` with a non-empty error as the claim states. -/
theorem indexProject_throw_completes_cex :
    ((alistGet (indexProject envC4 7 regC4 pThrowC4).1 "/gp").map
      (fun q => q.indexStatus) = some IndexStatus.completed)
    ∧ ((alistGet (indexProject envC4 7 regC4 pThrowC4).1 "/gp").bind
      (fun q => q.error) = none)
    ∧ IndexStatus.completed ≠ IndexStatus.failed := by decide

/-- C4 amended: a throwing analyzer call is caught inside the per-language
helper, which returns the counts assigned before the throw; `indexProject`
then records `completed` with those counts, leaves the error field untouched,
and nothing propagates: a second, healthy project later in the same batch
still reaches `completed` with its analyzer's counts. -/
theorem analyzer_throw_isolated (env : AnalyzerEnv) (now : Nat)
    (reg : Registry) (p q : ProjectMetadata) (e : String) (n a b : Nat)
    (hpq : p.path ≠ q.path)
    (hp : alistGet reg p.path = some p) (hq : alistGet reg q.path = some q)
    (hpl : p.language = Language.go) (hql : q.language = Language.go)
    (hthrow : env.goSymbols p.path = StageResult.thrown n e)
    (hqs : env.goSymbols q.path = StageResult.ok a)
    (hqt : env.goTests q.path = StageResult.ok b) :
    ((alistGet (indexProjects env now reg [p, q]).1 p.path).map
      (fun r => r.indexStatus) = some IndexStatus.completed)
    ∧ ((alistGet (indexProjects env now reg [p, q]).1 p.path).bind
      (fun r => r.symbolCount) = some n)
    ∧ ((alistGet (indexProjects env now reg [p, q]).1 p.path).bind
      (fun r => r.testCount) = some 0)
    ∧ ((alistGet (indexProjects env now reg [p, q]).1 p.path).bind
      (fun r => r.error) = p.error)
    ∧ ((alistGet (indexProjects env now reg [p, q]).1 q.path).map
      (fun r => r.indexStatus) = some IndexStatus.completed)
    ∧ ((alistGet (indexProjects env now reg [p, q]).1 q.path).bind
      (fun r => r.symbolCount) = some a)
    ∧ ((alistGet (indexProjects env now reg [p, q]).1 q.path).bind
      (fun r => r.testCount) = some b) := by
  have hfold : (indexProjects env now reg [p, q]).1 =
      (indexProject env now (indexProject env now reg p).1 q).1 := by
    unfold indexProjects
    simp [List.foldl]
  have hpq' : q.path ≠ p.path := fun hh => hpq hh.symm
  have hq1 : alistGet (indexProject env now reg p).1 q.path = some q := by
    rw [indexProject_get_other env now reg p q.path hpq]
    exact hq
  have hgetp : alistGet (indexProjects env now reg [p, q]).1 p.path =
      some (applyStatus (applyStatus p now IndexStatus.indexing none) now
        IndexStatus.completed
        (some { symbolCount := some n, testCount := some 0
                docCount := some 0, error := none })) := by
    rw [hfold, indexProject_get_other env now _ q p.path hpq']
    have := indexProject_get_self env now reg p p hp
    rw [hpl] at this
    simpa [indexLanguage, indexGoProject, indexLangStages, hthrow] using this
  have hgetq : alistGet (indexProjects env now reg [p, q]).1 q.path =
      some (applyStatus (applyStatus q now IndexStatus.indexing none) now
        IndexStatus.completed
        (some { symbolCount := some a, testCount := some b
                docCount := some (env.goDocs q.path), error := none })) := by
    rw [hfold]
    have := indexProject_get_self env now (indexProject env now reg p).1 q q hq1
    rw [hql] at this
    simpa [indexLanguage, indexGoProject, indexLangStages, hqs, hqt] using this
  rw [hgetp, hgetq]
  refine ⟨?_, ?_, ?_, ?_, ?_, ?_, ?_⟩ <;>
    simp [applyStatus, applyPatch]

/-- C4 amended witness: the throwing `/gp` project completes with zero
counts and no error, and the healthy `/hq` project completes with its
analyzer's counts. -/
theorem analyzer_throw_isolated_witness :
    ((alistGet (indexProjects envC4 7 regC4 [pThrowC4, pHealthyC4]).1
        "/gp").map (fun r => r.indexStatus) = some IndexStatus.completed)
    ∧ ((alistGet (indexProjects envC4 7 regC4 [pThrowC4, pHealthyC4]).1
        "/gp").bind (fun r => r.symbolCount) = some 0)
    ∧ ((alistGet (indexProjects envC4 7 regC4 [pThrowC4, pHealthyC4]).1
        "/gp").bind (fun r => r.testCount) = some 0)
    ∧ ((alistGet (indexProjects envC4 7 regC4 [pThrowC4, pHealthyC4]).1
        "/gp").bind (fun r => r.error) = pThrowC4.error)
    ∧ ((alistGet (indexProjects envC4 7 regC4 [pThrowC4, pHealthyC4]).1
        "/hq").map (fun r => r.indexStatus) = some IndexStatus.completed)
    ∧ ((alistGet (indexProjects envC4 7 regC4 [pThrowC4, pHealthyC4]).1
        "/hq").bind (fun r => r.symbolCount) = some 5)
    ∧ ((alistGet (indexProjects envC4 7 regC4 [pThrowC4, pHealthyC4]).1
        "/hq").bind (fun r => r.testCount) = some 2) :=
  analyzer_throw_isolated envC4 7 regC4 pThrowC4 pHealthyC4
    "go analyzer exploded" 0 5 2 (by decide) (by decide) (by decide)
    (by decide) (by decide) (by decide) (by decide) (by decide)

/-! ### C1: batch single-flight -/

theorem BatchInv_step (env : AnalyzerEnv) (now : Nat) (a : BatchAct)
    (m : MachineState) (h : BatchInv m) : BatchInv (stepBatch env now a m) := by
  cases a with
  | start =>
    by_cases hb : m.st.isIndexing = true
    · simpa [stepBatch, hb] using h
    · intro _
      simp only [stepBatch, Bool.not_eq_true] at hb ⊢
      rw [hb]
      simp
  | work =>
    rcases hp : m.pending with _ | l
    · intro hs
      simp only [stepBatch] at hs ⊢
      rw [hp] at hs ⊢
      exact h (by rw [hp] at hs ⊢; simpa using hs)
    · cases l with
      | nil =>
        intro hs
        simp only [stepBatch] at hs ⊢
        rw [hp] at hs ⊢
        exact h (by rw [hp]; rfl)
      | cons p rest =>
        intro _
        simp only [stepBatch]
        rw [hp]
        simp only []
        exact h (by rw [hp]; rfl)
  | finish =>
    rcases hp : m.pending with _ | l
    · intro hs
      simp only [stepBatch] at hs ⊢
      rw [hp] at hs ⊢
      exact h (by simpa [hp] using hs)
    · cases l with
      | nil =>
        intro hs
        simp only [stepBatch] at hs
        rw [hp] at hs
        simp at hs
      | cons p rest =>
        intro hs
        simp only [stepBatch] at hs ⊢
        rw [hp] at hs ⊢
        exact h (by rw [hp]; rfl)

/-- C1: a `runBatch` request arriving while the in-flight flag is set is a
complete no-op (no registry change, no external calls, no new batch); from an
idle state, `start` sets the flag synchronously before any indexing work,
`work` steps never touch the flag, draining the batch and finishing clears
it, and the in-flight invariant (a pending batch implies the flag) is
preserved along every interleaving, so at most one batch is ever active. -/
theorem runBatch_single_flight (env : AnalyzerEnv) (now : Nat)
    (m : MachineState) (hbusy : m.st.isIndexing = true) :
    stepBatch env now BatchAct.start m = m
    ∧ (∀ m2 : MachineState, m2.st.isIndexing = false →
        (stepBatch env now BatchAct.start m2).st.isIndexing = true
        ∧ (stepBatch env now BatchAct.start m2).st.registry = m2.st.registry
        ∧ (stepBatch env now BatchAct.start m2).st.calls = m2.st.calls
        ∧ (stepBatch env now BatchAct.start m2).pending =
            some (getProjectsNeedingIndex m2.st.registry now))
    ∧ (∀ m3 : MachineState,
        (stepBatch env now BatchAct.work m3).st.isIndexing =
          m3.st.isIndexing)
    ∧ (∀ m4 : MachineState, m4.pending = some [] →
        (stepBatch env now BatchAct.finish m4).st.isIndexing = false
        ∧ (stepBatch env now BatchAct.finish m4).pending = none)
    ∧ (∀ acts : List BatchAct, ∀ m5 : MachineState, BatchInv m5 →
        BatchInv (runActs env now m5 acts))
    ∧ indexPendingProjects env now m.st = m.st := by
  refine ⟨?_, ?_, ?_, ?_, ?_, ?_⟩
  · simp [stepBatch, hbusy]
  · intro m2 h2
    simp [stepBatch, h2]
  · intro m3
    rcases hp : m3.pending with _ | l
    · simp only [stepBatch]
      rw [hp]
    · cases l with
      | nil => simp only [stepBatch]; rw [hp]
      | cons p rest => simp only [stepBatch]; rw [hp]
  · intro m4 h4
    simp [stepBatch, h4]
  · intro acts
    induction acts with
    | nil => intro m5 h5; exact h5
    | cons a rest ih =>
      intro m5 h5
      exact ih (stepBatch env now a m5) (BatchInv_step env now a m5 h5)
  · simp [indexPendingProjects, hbusy]

def mBusyC1 : MachineState :=
  { st := { registry := regC4, isIndexing := true, calls := [] }
    pending := some [pHealthyC4] }

/-- C1 witness: with a batch in flight, both the machine `start` step and the
synchronous `indexPendingProjects` function leave the state untouched. -/
theorem runBatch_single_flight_witness :
    stepBatch envC4 0 BatchAct.start mBusyC1 = mBusyC1
    ∧ indexPendingProjects envC4 0 mBusyC1.st = mBusyC1.st :=
  ⟨(runBatch_single_flight envC4 0 mBusyC1 rfl).1,
   (runBatch_single_flight envC4 0 mBusyC1 rfl).2.2.2.2.2⟩

/-! ### C2: debounce coalescing -/

theorem watcherStep_first (p : ProjectMetadata) (t : Nat) (f : String)
    (hq : qualifies p f) :
    watcherStep { timers := [], calls := [] }
        { time := t, project := p, filename := f } =
      { timers := [(p.path, t + debounceDelay)], calls := [] } := by
  unfold watcherStep fireDue handleFileChange debounceReindex
  simp [hq.1, hq.2, alistSet]

theorem burst_fold (p : ProjectMetadata) :
    ∀ (evs : List (Nat × String)) (tprev : Nat) (cs : List (Nat × String)),
    (∀ e ∈ evs, qualifies p e.2) → gapsOk tprev evs →
    (mkEvents p evs).foldl watcherStep
        { timers := [(p.path, tprev + debounceDelay)], calls := cs } =
      { timers := [(p.path, lastTime tprev evs + debounceDelay)]
        calls := cs } := by
  intro evs
  induction evs with
  | nil => intro tprev cs _ _; simp [mkEvents, lastTime]
  | cons tf rest ih =>
    intro tprev cs hq hg
    obtain ⟨hlt, hwin, hg'⟩ := hg
    have hstep : watcherStep
        { timers := [(p.path, tprev + debounceDelay)], calls := cs }
        { time := tf.1, project := p, filename := tf.2 } =
        { timers := [(p.path, tf.1 + debounceDelay)], calls := cs } := by
      unfold watcherStep fireDue handleFileChange debounceReindex
      have hnot : ¬ (tprev + debounceDelay ≤ tf.1) := by omega
      have hqf := hq tf (List.mem_cons_self tf rest)
      simp [hnot, hqf.1, hqf.2, alistSet]
    calc (mkEvents p (tf :: rest)).foldl watcherStep
          { timers := [(p.path, tprev + debounceDelay)], calls := cs }
        = (mkEvents p rest).foldl watcherStep
          { timers := [(p.path, tf.1 + debounceDelay)], calls := cs } := by
          simp only [mkEvents, List.map_cons, List.foldl_cons]
          rw [hstep]
      _ = { timers := [(p.path, lastTime tf.1 rest + debounceDelay)]
            calls := cs } := by
          exact ih tf.1 cs (fun e he => hq e (List.mem_cons_of_mem tf he)) hg'
      _ = { timers := [(p.path, lastTime tprev (tf :: rest) + debounceDelay)]
            calls := cs } := by
          unfold lastTime
          rw [List.map_cons, List.getLastD_cons]

/-- C2: a burst of `N ≥ 1` qualifying events for one project, each arriving
strictly within the 5-second window of its predecessor, fires exactly one
reindex call for that project, at the time the window elapses after the last
event — and no call for any other project; re-arming a timer touches no
other project's timer entry. -/
theorem debounce_coalesces (p : ProjectMetadata) (t0 : Nat) (f0 : String)
    (rest : List (Nat × String))
    (hq : ∀ e ∈ (t0, f0) :: rest, qualifies p e.2)
    (hg : gapsOk t0 rest) :
    runWatcher { timers := [], calls := [] }
        (mkEvents p ((t0, f0) :: rest)) =
      { timers := []
        calls := [(lastTime t0 rest + debounceDelay, p.path)] }
    ∧ (∀ (timers : List (String × Nat)) (e : Nat) (q : String),
        q ≠ p.path →
        alistGet (alistSet timers p.path e) q = alistGet timers q) := by
  constructor
  · unfold runWatcher
    have h0 : (mkEvents p ((t0, f0) :: rest)).foldl watcherStep
        { timers := [], calls := [] } =
        { timers := [(p.path, lastTime t0 rest + debounceDelay)]
          calls := [] } := by
      simp only [mkEvents, List.map_cons, List.foldl_cons]
      rw [watcherStep_first p t0 f0 (hq (t0, f0) (List.mem_cons_self _ _))]
      exact burst_fold p rest t0 []
        (fun e he => hq e (List.mem_cons_of_mem _ he)) hg
    rw [h0]
    simp [flushTimers]
  · intro timers e q hqp
    exact alistGet_alistSet_ne timers p.path q e (fun hh => hqp hh.symm)

def pWatchC2 : ProjectMetadata :=
  { toDiscoveredProject :=
      { path := "/w", name := "w", language := Language.go, ide := Ide.none
        hasGit := false, lastModified := 0, indicators := ["go.mod"] }
    lastIndexed := none, indexStatus := IndexStatus.pending
    symbolCount := none, testCount := none, docCount := none, error := none }

/-- C2 witness: three `.go` change events at 0 ms, 1000 ms and 2000 ms
produce a single reindex call for `/w`, fired at 7000 ms. -/
theorem debounce_coalesces_witness :
    runWatcher { timers := [], calls := [] }
        (mkEvents pWatchC2 [(0, "a.go"), (1000, "b.go"), (2000, "c.go")]) =
      { timers := [], calls := [(7000, "/w")] } :=
  (debounce_coalesces pWatchC2 0 "a.go" [(1000, "b.go"), (2000, "c.go")]
    (by decide) (by norm_num [gapsOk, debounceDelay])).1

/-! ### C8: the raw-notification filter -/

def pWatchC8 : ProjectMetadata :=
  { toDiscoveredProject :=
      { path := "/g", name := "g", language := Language.go, ide := Ide.none
        hasGit := false, lastModified := 0, indicators := ["go.mod"] }
    lastIndexed := none, indexStatus := IndexStatus.pending
    symbolCount := none, testCount := none, docCount := none, error := none }

/-- C8 counterexample: `environment.go` lies under no denylisted noise
directory and carries the recognized `.go` extension, yet the watcher
discards it (arming no debounce timer), because `shouldIgnoreFile` tests
substring containment — `"environment.go"` contains `"env"` — rather than
path components. -/
theorem noise_filter_substring_cex :
    eventDiscarded Language.go "environment.go" = true
    ∧ liesUnderNoise "environment.go" = false
    ∧ isSourceFile "environment.go" Language.go = true
    ∧ handleFileChange { timers := [], calls := [] } 0 pWatchC8
        "environment.go" = { timers := [], calls := [] } := by decide

theorem handleFileChange_eq (st : WatcherState) (t : Nat)
    (p : ProjectMetadata) (f : String) :
    handleFileChange st t p f =
      (if eventDiscarded p.language f then st
       else debounceReindex st t p.path) := by
  unfold handleFileChange eventDiscarded
  cases hig : shouldIgnoreFile f
  · cases hsf : isSourceFile f p.language
    · simp [hig, hsf]
    · simp [hig, hsf]
  · simp [hig]

/-- C8 amended: a raw notification is discarded (arms no timer, fires no
reindex) exactly when the reported path contains one of the denylisted noise
names as a substring — not only when it lies under such a directory — or its
extension is not among the project language's recognized source extensions;
for "mixed" the recognized extensions are the union over all supported
languages; a qualifying event re-arms only this project's timer. -/
theorem event_filter_characterization (st : WatcherState) (t : Nat)
    (p : ProjectMetadata) (f : String) :
    (alistGet (handleFileChange st t p f).timers p.path =
      (if (ignorePaths.any fun ig => containsPat ig.toList f.toList) ||
          !((sourceExtensions p.language).contains (extname f))
       then alistGet st.timers p.path
       else some (t + debounceDelay)))
    ∧ (∀ q : String, q ≠ p.path →
        alistGet (handleFileChange st t p f).timers q = alistGet st.timers q)
    ∧ (handleFileChange st t p f).calls = st.calls
    ∧ sourceExtensions Language.mixed =
        sourceExtensions Language.go ++ sourceExtensions Language.python ++
          sourceExtensions Language.nodejs := by
  have hdef : eventDiscarded p.language f =
      ((ignorePaths.any fun ig => containsPat ig.toList f.toList) ||
        !((sourceExtensions p.language).contains (extname f))) := rfl
  refine ⟨?_, ?_, ?_, by decide⟩
  · rw [handleFileChange_eq, ← hdef]
    by_cases hd : eventDiscarded p.language f
    · simp [hd]
    · simp only [Bool.not_eq_true] at hd
      rw [hd]
      simp only [Bool.false_eq_true, if_false, debounceReindex]
      exact alistGet_alistSet_self st.timers p.path (t + debounceDelay)
  · intro q hqp
    rw [handleFileChange_eq]
    by_cases hd : eventDiscarded p.language f
    · simp [hd]
    · simp only [Bool.not_eq_true] at hd
      rw [hd]
      simp only [Bool.false_eq_true, if_false, debounceReindex]
      exact alistGet_alistSet_ne st.timers p.path q _ (fun hh => hqp hh.symm)
  · rw [handleFileChange_eq]
    by_cases hd : eventDiscarded p.language f
    · simp [hd]
    · simp only [Bool.not_eq_true] at hd
      rw [hd]
      simp [debounceReindex]

end LanguageMcp
